import Mathlib

/-!
Shallow embedding of `src/name_generator.py` (donjon-markovnamegen).

The Python module keeps two module-level dictionaries: `name_set` (the
word-list registry) and `chain_cache` (the chain store).  A chain is a
Python dict mapping state keys (the strings `"parts"`, `"name_len"`,
`"initial"`, and single characters) to transition tables (dicts from
token strings to integer counts); after `scale_chain` runs, the same
dict additionally holds the key `table_len`, whose value is a dict
from state key to total weight.  Python dicts preserve insertion order,
so chains and tables are embedded as association lists.  Because the
`table_len` entry has a different value type than the transition
tables, the chain dict is embedded as a structure whose `tlen` field is
`none` exactly when the Python dict has no `table_len` key.

Raisable exceptions (`KeyError` from dict lookups and `int(...)`
failures, `ValueError` from `random.randrange(0, 0)` and `int` of an
empty string,
`IndexError` from `name[0]` on an empty string, `AttributeError` from
`incr_chain` falling through to `str.keys()`) are embedded with
`Except`; global mutable state is threaded explicitly as a `GState`
value.  `random.randrange(0, n)` (with `n > 0`) is embedded by an
oracle stream `ds : Nat → Nat` of draws, the k-th call taking
`ds k % n`, which reaches exactly the values `0 ≤ idx < n`.
-/

namespace MarkovGen

/-- The Python exception kinds the translated functions can raise. -/
inductive PyErr where
  | keyError : PyErr
  | valueError : PyErr
  | indexError : PyErr
  | attributeError : PyErr
deriving DecidableEq, Repr

/-- A word-list entry: `construct_chain` accepts a bare string
(`type(names) is str`, treated as a one-part entry) or a list of
word-part strings. -/
inductive Entry where
  | str : String → Entry
  | lst : List String → Entry
deriving DecidableEq, Repr

/-- A Python chain dict.  `tbl` holds the state-key → transition-table
entries in insertion order; `tlen = some l` models the presence of the
`table_len` key (added by `scale_chain`), `none` its absence. -/
structure Chain where
  tbl : List (String × List (String × Nat))
  tlen : Option (List (String × Nat))
deriving DecidableEq, Repr

/-- The module-level mutable state: `chain_cache` plus an instrumentation
counter of how many times `construct_chain` has been entered. -/
structure GState where
  cache : List (String × Chain)
  builds : Nat
deriving DecidableEq, Repr

/-- Python dict lookup `d[k]` (first binding wins, as in a dict). -/
def lookupA {α : Type} : List (String × α) → String → Option α
  | [], _ => none
  | (k, v) :: r, key => if k = key then some v else lookupA r key

/-- Python dict assignment `d[k] = v`: replace in place, else append
(insertion order preserved). -/
def insertA {α : Type} : List (String × α) → String → α → List (String × α)
  | [], key, v => [(key, v)]
  | (k, w) :: r, key, v =>
    if k = key then (key, v) :: r else (k, w) :: insertA r key v

/-- Inner update of `incr_chain`: `chain[key][token] += 1`, creating the
token with count 1 when absent (appended, preserving insertion order). -/
def incrTable : List (String × Nat) → String → List (String × Nat)
  | [], tok => [(tok, 1)]
  | (t, w) :: rest, tok =>
    if t = tok then (t, w + 1) :: rest else (t, w) :: incrTable rest tok

/-- Outer update of `incr_chain`: create `chain[key] = {token: 1}` when
the key is absent, else bump `chain[key][token]`. -/
def incrTbl : List (String × List (String × Nat)) → String → String →
    List (String × List (String × Nat))
  | [], key, tok => [(key, [(tok, 1)])]
  | (k, tb) :: rest, key, tok =>
    if k = key then (k, incrTable tb tok) :: rest
    else (k, tb) :: incrTbl rest key tok

/-- Embedding of `incr_chain(chain, key, token)` acting on a chain value (the dict
branch of `incr_chain`; the string branch, which fetches
`chain_cache[chain]`, is handled at the call sites in
`construct_chain`, where the local `chain` variable and the cache entry
are the same mutated object). -/
def incrChain (ch : Chain) (key tok : String) : Chain :=
  ⟨incrTbl ch.tbl key tok, ch.tlen⟩

/-- The word-parts of an entry (`if type(names) is str: names = [names]`). -/
def entryParts : Entry → List String
  | .str s => [s]
  | .lst ss => ss

/-- The `while len(word) > 0` loop of `construct_chain`: record
`prev[c]` for each remaining character, advancing `last_c`. -/
def tallyWalk (ch : Chain) (lastc : String) : List Char → Chain
  | [] => ch
  | c :: rest => tallyWalk (incrChain ch lastc (String.singleton c)) (String.singleton c) rest

/-- The per-word-part body of the inner loop of `construct_chain`: tally
`name_len`, then read `name[0]` (an `IndexError` when the part is
empty), tally `initial`, then walk the remaining characters. -/
def tallyPart (ch : Chain) (name : String) : Option PyErr × Chain :=
  let ch1 := incrChain ch "name_len" (toString name.length)
  match name.data with
  | [] => (some .indexError, ch1)
  | c :: rest =>
    let ch2 := incrChain ch1 "initial" (String.singleton c)
    (none, tallyWalk ch2 (String.singleton c) rest)

/-- The `for j in range(0, len(names))` loop over the word-parts of one
entry; an exception aborts the loop with the tallies made so far. -/
def tallyParts (ch : Chain) : List String → Option PyErr × Chain
  | [] => (none, ch)
  | p :: rest =>
    match tallyPart ch p with
    | (some e, ch1) => (some e, ch1)
    | (none, ch1) => tallyParts ch1 rest

/-- One iteration of the outer loop of `construct_chain`: tally
`parts[str(len(names))]`, then the word-parts. -/
def tallyEntry (ch : Chain) (e : Entry) : Option PyErr × Chain :=
  let ns := entryParts e
  tallyParts (incrChain ch "parts" (toString ns.length)) ns

/-- The whole `for names in wordlist` loop. -/
def tallyAll (ch : Chain) : List Entry → Option PyErr × Chain
  | [] => (none, ch)
  | e :: rest =>
    match tallyEntry ch e with
    | (some er, ch1) => (some er, ch1)
    | (none, ch1) => tallyAll ch1 rest

/-- The scaling transform `math.floor(math.pow(count, 1.3))`, embedded
exactly over the reals: `scaled n` is the largest `m` with
`m ^ 10 ≤ n ^ 13`, i.e. `⌊ n ^ (13/10) ⌋` (proved in
`scaled_eq_floor_rpow` below).  The search bound `n ^ 2` is sound since
`m ^ 10 ≤ n ^ 13 ≤ (n ^ 2) ^ 10`. -/
def scaled (n : Nat) : Nat :=
  Nat.findGreatest (fun m => m ^ 10 ≤ n ^ 13) (n ^ 2)

/-- Scale one transition table (`chain[key][token] = weighted`). -/
def scaleTable (tb : List (String × Nat)) : List (String × Nat) :=
  tb.map (fun p => (p.1, scaled p.2))

/-- Total weight of a transition table. -/
def sumW (tb : List (String × Nat)) : Nat :=
  (tb.map Prod.snd).sum

/-- The pass of `scale_chain` over the state keys of the chain: scaled tables. -/
def scaleTbl : List (String × List (String × Nat)) → List (String × List (String × Nat))
  | [] => []
  | (k, tb) :: r => (k, scaleTable tb) :: scaleTbl r

/-- The accumulated `table_len` of `scale_chain`: per key, the sum of the
scaled weights of that key, in the same key order. -/
def lenTbl : List (String × List (String × Nat)) → List (String × Nat)
  | [] => []
  | (k, tb) :: r => (k, sumW (scaleTable tb)) :: lenTbl r

/-- Embedding of `scale_chain(chain)`: replace every count with `scaled count`, and
store `table_len` (the Python code writes the `table_len` key into the
same dict).  In every reachable call the argument has no `table_len`
key yet (`construct_chain` starts from the `{}` placeholder that
`markov_chain` just installed), so only transition tables are scaled. -/
def scale_chain (ch : Chain) : Chain :=
  ⟨scaleTbl ch.tbl, some (lenTbl ch.tbl)⟩

/-- Truthiness of a chain dict (`if chain:` / `chain != {}`). -/
def chainNonempty (ch : Chain) : Bool :=
  !(ch.tbl.isEmpty && ch.tlen.isNone)

/-- The word-list registry `name_set`. -/
abbrev Registry := List (String × List Entry)

/-- Embedding of `construct_chain(wordlistName)`.  Reads `name_set[wordlistName]`
(`KeyError` when absent).  With a non-empty word list the first
`incr_chain` call on the name (for `parts`) fetches
`chain_cache[wordlistName]` — absent, `incr_chain` falls through and
calls `.keys()` on the string, an `AttributeError`.  From then on the
local `chain` variable and `chain_cache[wordlistName]` are the same
object, mutated in place, so the tally is threaded from the cache entry
and the final (or, on an exception, partial) chain is written back to
the cache.  An empty word list never touches the cache: the local `{}`
is scaled and returned. -/
def construct_chain (reg : Registry) (name : String) (st : GState) :
    Except PyErr Chain × GState :=
  let st0 : GState := { st with builds := st.builds + 1 }
  match lookupA reg name with
  | none => (.error .keyError, st0)
  | some wl =>
    match wl with
    | [] => (.ok (scale_chain ⟨[], none⟩), st0)
    | _ =>
      match lookupA st0.cache name with
      | none => (.error .attributeError, st0)
      | some ch0 =>
        match tallyAll ch0 wl with
        | (some e, raw) =>
          (.error e, { st0 with cache := insertA st0.cache name raw })
        | (none, raw) =>
          let sc := scale_chain raw
          (.ok sc, { st0 with cache := insertA st0.cache name sc })

/-- Embedding of `markov_chain(chainName)`: return the cached chain; on a cache miss
read `name_set[chainName]` (this lookup sits inside the
`except KeyError:` handler, so a missing registry entry raises), and
for a non-empty word list install the `{}` placeholder, build, and
publish the built chain when it is truthy. -/
def markov_chain (reg : Registry) (ident : String) (st : GState) :
    Except PyErr Chain × GState :=
  match lookupA st.cache ident with
  | some ch => (.ok ch, st)
  | none =>
    match lookupA reg ident with
    | none => (.error .keyError, st)
    | some wl =>
      match wl with
      | [] => (.ok ⟨[], none⟩, st)
      | _ =>
        let st1 : GState := { st with cache := insertA st.cache ident ⟨[], none⟩ }
        match construct_chain reg ident st1 with
        | (.ok ch, st2) =>
          if chainNonempty ch then
            (.ok ch, { st2 with cache := insertA st2.cache ident ch })
          else (.ok ch, st2)
        | (.error e, st2) => (.error e, st2)

/-- The accumulation loop of `select_link`: return the first token whose
cumulative weight exceeds `idx`, else the empty-string fallthrough. -/
def pickToken : List (String × Nat) → Nat → Nat → String
  | [], _, _ => ""
  | (t, w) :: rest, idx, acc =>
    if idx < acc + w then t else pickToken rest idx (acc + w)

/-- Embedding of `select_link(chain, key)` with draw oracle value `d`.
The lookup of `key` under `table_len` raises `KeyError` when either
key is absent.
The guard `if chainlen is False:` compares identity with the `False`
object: an `int` is never `is False`, so the guard cannot fire and
`random.randrange(0, 0)` raises `ValueError` when the total is 0.
Otherwise `idx = d % chainlen ∈ [0, chainlen)` and `chain[key]`
(`KeyError` when absent) is scanned. -/
def select_link (chain : Chain) (key : String) (d : Nat) : Except PyErr String :=
  match chain.tlen with
  | none => .error .keyError
  | some tl =>
    match lookupA tl key with
    | none => .error .keyError
    | some chainlen =>
      if chainlen = 0 then .error .valueError
      else
        match lookupA chain.tbl key with
        | none => .error .keyError
        | some table => .ok (pickToken table (d % chainlen) 0)

/-- Decimal value of a digit list, most significant first. -/
def digitsVal (cs : List Char) : Nat :=
  cs.foldl (fun n c => n * 10 + (c.toNat - 48)) 0

/-- Python `int(token)` on the sampled token: `ValueError` unless the
string is a non-empty digit string (the tokens produced by
`construct_chain` for `parts` and `name_len` are exactly `str(n)`). -/
def intOfToken (s : String) : Except PyErr Nat :=
  match s.data with
  | [] => .error .valueError
  | cs =>
    if cs.all Char.isDigit then .ok (digitsVal cs) else .error .valueError

/-- The `while len(name) < name_len` loop of `markov_name`.  `fuel`
bounds the recursion; started at `nlen` it never runs out before the
guard fails, because every appended token is non-empty.  Returns the
built word-part (or the first exception) and the advanced draw index. -/
def buildPart (chain : Chain) (ds : Nat → Nat) (nlen : Nat) :
    Nat → Nat → String → String → Except PyErr String × Nat
  | 0, k, name, _ => (.ok name, k)
  | fuel + 1, k, name, lastc =>
    if name.length < nlen then
      match select_link chain lastc (ds k) with
      | .error e => (.error e, k + 1)
      | .ok c =>
        if c.length = 0 then (.ok name, k + 1)
        else buildPart chain ds nlen fuel (k + 1) (name ++ c) c
    else (.ok name, k)

/-- The `for i in range(parts)` loop of `markov_name`: sample
`name_len`, `initial`, build the part, collect. -/
def goParts (chain : Chain) (ds : Nat → Nat) :
    Nat → Nat → List String → Except PyErr String × Nat
  | 0, k, names => (.ok (String.intercalate " " names), k)
  | i + 1, k, names =>
    match select_link chain "name_len" (ds k) with
    | .error e => (.error e, k + 1)
    | .ok s =>
      match intOfToken s with
      | .error e => (.error e, k + 1)
      | .ok nlen =>
        match select_link chain "initial" (ds (k + 1)) with
        | .error e => (.error e, k + 2)
        | .ok c =>
          match buildPart chain ds nlen nlen (k + 2) c c with
          | (.error e, _) => (.error e, 0)
          | (.ok name, k2) => goParts chain ds i k2 (names ++ [name])

/-- Embedding of `markov_name(chain)` with draw oracle `ds`. -/
def markov_name (chain : Chain) (ds : Nat → Nat) : Except PyErr String :=
  match select_link chain "parts" (ds 0) with
  | .error e => .error e
  | .ok s =>
    match intOfToken s with
    | .error e => .error e
    | .ok parts => (goParts chain ds parts 1 []).1

/-- Embedding of `generate_name(wordlistName)`: fetch (or build) the chain; when it
is `!= \x7b\x7d`, synthesize a name, else return the empty string. -/
def generate_name (reg : Registry) (ds : Nat → Nat) (ident : String) (st : GState) :
    Except PyErr String × GState :=
  match markov_chain reg ident st with
  | (.ok ch, st1) =>
    if chainNonempty ch then (markov_name ch ds, st1) else (.ok "", st1)
  | (.error e, st1) => (.error e, st1)

/-- Whether an `Except` result is a normal return (no exception). -/
def isOkE : Except PyErr Chain → Bool
  | .ok _ => true
  | .error _ => false

/-- Invariant of tallied chains: the transition table of every state key is
non-empty and every recorded count is at least 1. -/
def goodTbl (tbl : List (String × List (String × Nat))) : Prop :=
  ∀ p ∈ tbl, p.2 ≠ [] ∧ ∀ q ∈ p.2, 1 ≤ q.2

/-- A draw oracle that always answers 0. -/
def zeroDraws : Nat → Nat := fun _ => 0

/-- The initial module state: empty `chain_cache`, no builds yet. -/
def emptyState : GState := ⟨[], 0⟩

/-- Registry with one registered list; `"unknown"` is not registered. -/
def regC1 : Registry := [("known", [Entry.str "ab"])]

/-- Word list `["ab", "b"]`: the character `b` never precedes anything,
so the built chain has no state key `"b"`. -/
def regC3 : Registry := [("x", [Entry.str "ab", Entry.str "b"])]

/-- Draws steering `markov_name` on the chain of `regC3`: one part, target
length 2, initial letter `b` — then the walk must continue from `b`. -/
def drawsC3 : Nat → Nat := fun k => List.getD [0, 0, 1] k 0

/-- Word list `["xab", "aya"]`: every entry has one part of length 3,
and `b` only ever occurs word-finally. -/
def regC5 : Registry := [("x", [Entry.str "xab", Entry.str "aya"])]

/-- Draws steering `markov_name` on the chain of `regC5`: one part, target
length 3, initial letter `a`, then token `b` — a dead end at length 2. -/
def drawsC5 : Nat → Nat := fun k => List.getD [0, 0, 1, 0] k 0

/-- Registry whose word list contains a zero-length word-part. -/
def regC9 : Registry := [("x", [Entry.str ""])]

/-- Registry whose word list has a zero-length word-part, for
`construct_chain` called the way `markov_chain` calls it. -/
def regC4 : Registry := [("w", [Entry.str ""])]

/-- Cache state as `markov_chain` prepares it before building `"w"`:
the `{}` placeholder is installed. -/
def stC4 : GState := ⟨[("w", ⟨[], none⟩)], 0⟩

/-- Registry with the single-entry word list `["ab"]`. -/
def regC8 : Registry := [("w", [Entry.str "ab"])]

/-- The chain `construct_chain` builds from `["ab"]`. -/
def chainC8 : Chain :=
  ⟨[("parts", [("1", 1)]), ("name_len", [("2", 1)]),
    ("initial", [("a", 1)]), ("a", [("b", 1)])],
   some [("parts", 1), ("name_len", 1), ("initial", 1), ("a", 1)]⟩

/-- The module state after `markov_chain` builds and publishes
`chainC8`. -/
def stateC8 : GState := ⟨[("w", chainC8)], 1⟩

/-- Registry whose word list has a zero-length part after a good one. -/
def regC4w : Registry := [("y", [Entry.str "ab", Entry.str ""])]

/-- Cache holding the placeholder for `"y"`. -/
def stC4w : GState := ⟨[("y", ⟨[], none⟩)], 0⟩

end MarkovGen

namespace MarkovGen

theorem lookupA_insertA_self {α : Type} (l : List (String × α)) (k : String) (v : α) :
    lookupA (insertA l k v) k = some v := by
  induction l with
  | nil => simp [insertA, lookupA]
  | cons p r ih =>
    obtain ⟨k1, v1⟩ := p
    by_cases h : k1 = k
    · simp [insertA, h, lookupA]
    · simp [insertA, h, lookupA, ih]

theorem lookupA_scaleTbl_lenTbl (l : List (String × List (String × Nat)))
    (key : String) (tb : List (String × Nat))
    (h : lookupA (scaleTbl l) key = some tb) :
    lookupA (lenTbl l) key = some (sumW tb) := by
  induction l with
  | nil => simp [scaleTbl, lookupA] at h
  | cons p r ih =>
    obtain ⟨k1, tb1⟩ := p
    by_cases hk : k1 = key
    · simp [scaleTbl, lookupA, hk] at h
      simp [lenTbl, lookupA, hk, ← h]
    · simp only [scaleTbl, lookupA, if_neg hk] at h
      simp only [lenTbl, lookupA, if_neg hk]
      exact ih h

theorem lookupA_scaleTbl (l : List (String × List (String × Nat)))
    (key : String) (tb : List (String × Nat))
    (h : lookupA l key = some tb) :
    lookupA (scaleTbl l) key = some (scaleTable tb) := by
  induction l with
  | nil => simp [lookupA] at h
  | cons p r ih =>
    obtain ⟨k1, tb1⟩ := p
    by_cases hk : k1 = key
    · simp [lookupA, hk] at h
      simp [scaleTbl, lookupA, hk, ← h]
    · simp only [lookupA, if_neg hk] at h
      simp only [scaleTbl, lookupA, if_neg hk]
      exact ih h

theorem chainNonempty_scale (ch : Chain) : chainNonempty (scale_chain ch) = true := by
  simp [chainNonempty, scale_chain]

end MarkovGen

namespace MarkovGen

/-- Claim C6: for every chain returned by `scale_chain` and every state
key present in it, the `table_len` entry for that key equals the sum of
the weights in the transition table of that key; and no operation mutates a
chain already present in the chain store — a `markov_chain` call whose
identifier is cached returns the module state (cache and build count)
entirely unchanged, so the equality persists for the whole chain
lifetime. -/
theorem claim6_weight_conservation :
    (∀ (ch : Chain) (key : String) (tb : List (String × Nat)),
        lookupA (scale_chain ch).tbl key = some tb →
        lookupA ((scale_chain ch).tlen.getD []) key = some (sumW tb)) ∧
      ∀ (reg : Registry) (ident : String) (st : GState),
        (lookupA st.cache ident).isSome = true →
        (markov_chain reg ident st).2 = st := by
  constructor
  · intro ch key tb h
    exact lookupA_scaleTbl_lenTbl ch.tbl key tb h
  · intro reg ident st h
    rw [Option.isSome_iff_exists] at h
    obtain ⟨ch, hch⟩ := h
    simp [markov_chain, hch]

/-- Claim C6, witness: both conjuncts instantiated at concrete inputs
(a chain with a scaled weight of `scaled 2 = 2`, and a cache that
already holds the identifier `"k"`). -/
theorem claim6_witness :
    lookupA ((scale_chain ⟨[("initial", [("a", 2)])], none⟩).tlen.getD [])
        "initial" = some (sumW [("a", 2)]) ∧
      (markov_chain [] "k" ⟨[("k", ⟨[], none⟩)], 5⟩).2 = ⟨[("k", ⟨[], none⟩)], 5⟩ :=
  ⟨claim6_weight_conservation.1 ⟨[("initial", [("a", 2)])], none⟩ "initial"
      [("a", 2)] rfl,
    claim6_weight_conservation.2 [] "k" ⟨[("k", ⟨[], none⟩)], 5⟩ rfl⟩

/-- Claim C8: when a `markov_chain` call returns normally, calling it
again with the same registry and the resulting state returns the very
same chain and the very same state — the second call is a pure cache
hit, and since the state carries the count of `construct_chain`
invocations, its unchangedness shows the builder is not invoked again;
moreover a single call enters `construct_chain` at most once. -/
theorem claim8_idempotent_cache :
    ∀ (reg : Registry) (ident : String) (st : GState),
      isOkE (markov_chain reg ident st).1 = true →
      markov_chain reg ident (markov_chain reg ident st).2 =
          markov_chain reg ident st ∧
        (markov_chain reg ident st).2.builds ≤ st.builds + 1 := by
  intro reg ident st _hok
  cases hc : lookupA st.cache ident with
  | some ch => simp [markov_chain, hc]
  | none =>
    cases hr : lookupA reg ident with
    | none => simp [markov_chain, hc, hr, isOkE] at _hok
    | some wl =>
      cases wl with
      | nil => simp [markov_chain, hc, hr]
      | cons e rest =>
        rcases hta : tallyAll ⟨[], none⟩ (e :: rest) with ⟨err, raw⟩
        cases err with
        | some er =>
          simp [markov_chain, construct_chain, hc, hr, lookupA_insertA_self,
            hta, isOkE] at _hok
        | none =>
          constructor
          · simp [markov_chain, construct_chain, hc, hr, lookupA_insertA_self,
              hta, chainNonempty_scale]
          · simp [markov_chain, construct_chain, hc, hr, lookupA_insertA_self,
              hta, chainNonempty_scale]

/-- Claim C8, witness: the theorem applied to the registry `["ab"]` at
the empty initial state; the success of the first call is evaluated. -/
theorem claim8_witness :
    markov_chain regC8 "w" (markov_chain regC8 "w" emptyState).2 =
        markov_chain regC8 "w" emptyState ∧
      (markov_chain regC8 "w" emptyState).2.builds ≤ emptyState.builds + 1 :=
  claim8_idempotent_cache regC8 "w" emptyState rfl

/-- Claim C9, amended: `markov_chain` installs an empty placeholder
under the identifier before building, and `incr_chain` mutates that
cache entry in place, so the store can hold a partially built chain
during construction — and keeps it if construction raises (see the
counterexample).  What does hold: when a cache-missing call returns
normally with a non-empty chain, the entry published under the
identifier is exactly the returned chain, and it carries a `table_len`
key, i.e. the scaling pass has completed on it. -/
theorem claim9_amended_publication :
    ∀ (reg : Registry) (ident : String) (st : GState) (ch : Chain) (st1 : GState),
      lookupA st.cache ident = none →
      markov_chain reg ident st = (.ok ch, st1) →
      chainNonempty ch = true →
      lookupA st1.cache ident = some ch ∧ ch.tlen.isSome = true := by
  intro reg ident st ch st1 hc hm hne
  cases hr : lookupA reg ident with
  | none => simp [markov_chain, hc, hr] at hm
  | some wl =>
    cases wl with
    | nil =>
      simp [markov_chain, hc, hr] at hm
      rw [← hm.1] at hne
      simp [chainNonempty] at hne
    | cons e rest =>
      rcases hta : tallyAll ⟨[], none⟩ (e :: rest) with ⟨err, raw⟩
      cases err with
      | some er =>
        simp [markov_chain, construct_chain, hc, hr, lookupA_insertA_self, hta] at hm
      | none =>
        simp [markov_chain, construct_chain, hc, hr, lookupA_insertA_self, hta,
          chainNonempty_scale] at hm
        obtain ⟨hch, hst⟩ := hm
        subst hch
        subst hst
        constructor
        · simp [lookupA_insertA_self]
        · simp [scale_chain]

/-- Claim C9, witness for the amended theorem: building `["ab"]` from
an empty cache publishes exactly the built, scaled chain. -/
theorem claim9_witness :
    lookupA stateC8.cache "w" = some chainC8 ∧ chainC8.tlen.isSome = true :=
  claim9_amended_publication regC8 "w" emptyState chainC8 stateC8 rfl rfl rfl

end MarkovGen

namespace MarkovGen

theorem tallyPart_ne_empty (ch : Chain) (p : String) (hp : p ≠ "") :
    (tallyPart ch p).1 = none := by
  cases hd : p.data with
  | nil => exact absurd (String.ext (by rw [hd])) hp
  | cons c rest => simp [tallyPart, hd]

theorem tallyParts_has_empty (ps : List String) :
    ∀ ch : Chain, "" ∈ ps → (tallyParts ch ps).1 = some PyErr.indexError := by
  induction ps with
  | nil => intro ch h; simp at h
  | cons p rest ih =>
    intro ch h
    by_cases hp : p = ""
    · subst hp
      have h1 : (tallyPart ch "").1 = some PyErr.indexError := rfl
      rcases htp : tallyPart ch "" with ⟨e1, ch1⟩
      rw [htp] at h1
      simp only at h1
      subst h1
      simp [tallyParts, htp]
    · have hrest : "" ∈ rest := by
        rcases List.mem_cons.mp h with h1 | h1
        · exact absurd h1.symm hp
        · exact h1
      have hok := tallyPart_ne_empty ch p hp
      rcases htp : tallyPart ch p with ⟨e1, ch1⟩
      rw [htp] at hok
      simp only at hok
      subst hok
      simp only [tallyParts, htp]
      exact ih ch1 hrest

theorem tallyParts_no_empty (ps : List String) :
    ∀ ch : Chain, "" ∉ ps → (tallyParts ch ps).1 = none := by
  induction ps with
  | nil => intro ch _; rfl
  | cons p rest ih =>
    intro ch h
    have hp : p ≠ "" := fun he => h (by rw [he]; exact List.mem_cons_self _ _)
    have hrest : "" ∉ rest := fun he => h (List.mem_cons_of_mem _ he)
    have hok := tallyPart_ne_empty ch p hp
    rcases htp : tallyPart ch p with ⟨e1, ch1⟩
    rw [htp] at hok
    simp only at hok
    subst hok
    simp only [tallyParts, htp]
    exact ih ch1 hrest

theorem tallyAll_has_empty (wl : List Entry) :
    ∀ ch : Chain, (∃ e ∈ wl, "" ∈ entryParts e) →
      (tallyAll ch wl).1 = some PyErr.indexError := by
  induction wl with
  | nil => intro ch h; simp at h
  | cons e rest ih =>
    intro ch hex
    by_cases he : "" ∈ entryParts e
    · have h1 : (tallyEntry ch e).1 = some PyErr.indexError := by
        unfold tallyEntry
        exact tallyParts_has_empty _ _ he
      rcases hte : tallyEntry ch e with ⟨e1, ch1⟩
      rw [hte] at h1
      simp only at h1
      subst h1
      simp [tallyAll, hte]
    · have h1 : (tallyEntry ch e).1 = none := by
        unfold tallyEntry
        exact tallyParts_no_empty _ _ he
      obtain ⟨e2, he2, hin⟩ := hex
      have he2r : e2 ∈ rest := by
        rcases List.mem_cons.mp he2 with h2 | h2
        · rw [h2] at hin; exact absurd hin he
        · exact h2
      rcases hte : tallyEntry ch e with ⟨e1, ch1⟩
      rw [hte] at h1
      simp only at h1
      subst h1
      simp only [tallyAll, hte]
      exact ih ch1 ⟨e2, he2r, hin⟩

/-- Claim C4, amended: a word list containing a zero-length word-part
does not build — when `construct_chain` runs under the conditions
`markov_chain` establishes (registered word list, cache entry
installed), reading `name[0]` of the empty part raises `IndexError`, so no
chain is produced (the length-0 `name_len` occurrence is tallied, but
the build aborts instead of succeeding). -/
theorem claim4_amended_empty_part_raises :
    ∀ (reg : Registry) (ident : String) (wl : List Entry) (st : GState),
      lookupA reg ident = some wl →
      (lookupA st.cache ident).isSome = true →
      (∃ e ∈ wl, "" ∈ entryParts e) →
      (construct_chain reg ident st).1 = Except.error PyErr.indexError := by
  intro reg ident wl st hr hc hex
  cases wl with
  | nil => obtain ⟨e, he, _⟩ := hex; simp at he
  | cons e rest =>
    rw [Option.isSome_iff_exists] at hc
    obtain ⟨ch0, hch0⟩ := hc
    have h1 := tallyAll_has_empty (e :: rest) ch0 hex
    rcases hta : tallyAll ch0 (e :: rest) with ⟨err, raw⟩
    rw [hta] at h1
    simp only at h1
    subst h1
    simp [construct_chain, hr, hch0, hta]

/-- Claim C4, witness for the amended theorem: the word list
`["ab", ""]` aborts with `IndexError`. -/
theorem claim4_witness :
    (construct_chain regC4w "y" stC4w).1 = Except.error PyErr.indexError :=
  claim4_amended_empty_part_raises regC4w "y" [Entry.str "ab", Entry.str ""] stC4w
    rfl rfl ⟨Entry.str "", by simp, by simp [entryParts]⟩

end MarkovGen

namespace MarkovGen

theorem incrTable_weights (tb : List (String × Nat)) (tok : String)
    (h : ∀ q ∈ tb, 1 ≤ q.2) :
    incrTable tb tok ≠ [] ∧ ∀ q ∈ incrTable tb tok, 1 ≤ q.2 := by
  induction tb with
  | nil =>
    refine ⟨by simp [incrTable], ?_⟩
    intro q hq
    simp [incrTable] at hq
    simp [hq]
  | cons p rest ih =>
    obtain ⟨t, w⟩ := p
    by_cases ht : t = tok
    · refine ⟨by simp [incrTable, ht], ?_⟩
      intro q hq
      simp only [incrTable, if_pos ht, List.mem_cons] at hq
      rcases hq with hq | hq
      · simp [hq]
      · exact h q (List.mem_cons_of_mem _ hq)
    · refine ⟨by simp [incrTable, ht], ?_⟩
      intro q hq
      simp only [incrTable, if_neg ht, List.mem_cons] at hq
      rcases hq with hq | hq
      · exact h q (by rw [hq]; exact List.mem_cons_self _ _)
      · have hrest : ∀ q ∈ rest, 1 ≤ q.2 :=
          fun q hq2 => h q (List.mem_cons_of_mem _ hq2)
        exact (ih hrest).2 q hq

theorem goodTbl_incrTbl (l : List (String × List (String × Nat)))
    (key tok : String) (h : goodTbl l) : goodTbl (incrTbl l key tok) := by
  induction l with
  | nil =>
    intro p hp
    simp [incrTbl] at hp
    subst hp
    exact ⟨by simp, by intro q hq; simp at hq; simp [hq]⟩
  | cons p0 rest ih =>
    obtain ⟨k0, tb0⟩ := p0
    have hhead := h (k0, tb0) (List.mem_cons_self _ _)
    have htail : goodTbl rest := fun p hp => h p (List.mem_cons_of_mem _ hp)
    by_cases hk : k0 = key
    · intro p hp
      simp only [incrTbl, if_pos hk, List.mem_cons] at hp
      rcases hp with hp | hp
      · subst hp
        exact incrTable_weights tb0 tok hhead.2
      · exact htail p hp
    · intro p hp
      simp only [incrTbl, if_neg hk, List.mem_cons] at hp
      rcases hp with hp | hp
      · subst hp; exact hhead
      · exact ih htail p hp

theorem goodTbl_incrChain (ch : Chain) (key tok : String)
    (h : goodTbl ch.tbl) : goodTbl (incrChain ch key tok).tbl :=
  goodTbl_incrTbl ch.tbl key tok h

theorem goodTbl_tallyWalk (cs : List Char) :
    ∀ (ch : Chain) (lastc : String), goodTbl ch.tbl →
      goodTbl (tallyWalk ch lastc cs).tbl := by
  induction cs with
  | nil => intro ch lastc h; exact h
  | cons c rest ih =>
    intro ch lastc h
    exact ih _ _ (goodTbl_incrChain ch lastc (String.singleton c) h)

theorem goodTbl_tallyPart (ch : Chain) (p : String) (h : goodTbl ch.tbl) :
    goodTbl (tallyPart ch p).2.tbl := by
  cases hd : p.data with
  | nil =>
    simp only [tallyPart, hd]
    exact goodTbl_incrChain _ _ _ h
  | cons c rest =>
    simp only [tallyPart, hd]
    exact goodTbl_tallyWalk rest _ _
      (goodTbl_incrChain _ _ _ (goodTbl_incrChain _ _ _ h))

theorem goodTbl_tallyParts (ps : List String) :
    ∀ ch : Chain, goodTbl ch.tbl → goodTbl (tallyParts ch ps).2.tbl := by
  induction ps with
  | nil => intro ch h; exact h
  | cons p rest ih =>
    intro ch h
    have h1 := goodTbl_tallyPart ch p h
    rcases htp : tallyPart ch p with ⟨e1, ch1⟩
    rw [htp] at h1
    cases e1 with
    | some er => simpa [tallyParts, htp] using h1
    | none =>
      simp only [tallyParts, htp]
      exact ih ch1 h1

theorem goodTbl_tallyEntry (ch : Chain) (e : Entry) (h : goodTbl ch.tbl) :
    goodTbl (tallyEntry ch e).2.tbl := by
  unfold tallyEntry
  exact goodTbl_tallyParts _ _ (goodTbl_incrChain _ _ _ h)

theorem goodTbl_tallyAll (wl : List Entry) :
    ∀ ch : Chain, goodTbl ch.tbl → goodTbl (tallyAll ch wl).2.tbl := by
  induction wl with
  | nil => intro ch h; exact h
  | cons e rest ih =>
    intro ch h
    have h1 := goodTbl_tallyEntry ch e h
    rcases hte : tallyEntry ch e with ⟨e1, ch1⟩
    rw [hte] at h1
    cases e1 with
    | some er => simpa [tallyAll, hte] using h1
    | none =>
      simp only [tallyAll, hte]
      exact ih ch1 h1

theorem one_le_scaled (n : Nat) (h : 1 ≤ n) : 1 ≤ scaled n := by
  apply Nat.le_findGreatest
  · exact Nat.one_le_pow 2 n h
  · calc (1 : Nat) ^ 10 = 1 := one_pow 10
      _ ≤ n ^ 13 := Nat.one_le_pow 13 n h

theorem lookupA_mem {α : Type} (l : List (String × α)) (key : String) (v : α)
    (h : lookupA l key = some v) : (key, v) ∈ l := by
  induction l with
  | nil => simp [lookupA] at h
  | cons p rest ih =>
    obtain ⟨k1, v1⟩ := p
    by_cases hk : k1 = key
    · simp [lookupA, hk] at h
      subst hk
      rw [h]
      exact List.mem_cons_self _ _
    · simp only [lookupA, if_neg hk] at h
      exact List.mem_cons_of_mem _ (ih h)

theorem lookupA_scaleTbl_inv (l : List (String × List (String × Nat)))
    (key : String) (tb : List (String × Nat))
    (h : lookupA (scaleTbl l) key = some tb) :
    ∃ tb0, lookupA l key = some tb0 ∧ tb = scaleTable tb0 := by
  induction l with
  | nil => simp [scaleTbl, lookupA] at h
  | cons p rest ih =>
    obtain ⟨k1, tb1⟩ := p
    by_cases hk : k1 = key
    · simp only [scaleTbl, lookupA, if_pos hk] at h
      exact ⟨tb1, by simp [lookupA, hk], by simp at h; exact h.symm⟩
    · simp only [scaleTbl, lookupA, if_neg hk] at h
      obtain ⟨tb0, h1, h2⟩ := ih h
      exact ⟨tb0, by simp [lookupA, hk, h1], h2⟩

theorem one_le_sumW (tb : List (String × Nat)) (q : String × Nat)
    (hq : q ∈ tb) (h1 : 1 ≤ q.2) : 1 ≤ sumW tb := by
  have hmem : q.2 ∈ tb.map Prod.snd := List.mem_map_of_mem Prod.snd hq
  have := List.single_le_sum (fun x _ => Nat.zero_le x) q.2 hmem
  exact le_trans h1 this

/-- Claim C10: a chain built by `construct_chain` from a non-empty word
list of non-empty word-parts (run the way `markov_chain` runs it, with
the empty placeholder installed) has, at every state key present in its
transition tables, at least one token of scaled weight ≥ 1 (because
`floor(n^1.3) ≥ 1` for every raw count `n ≥ 1`), and hence a
`table_len` entry of at least 1: sampling a key that exists in the
chain never meets a zero total. -/
theorem claim10_positive_totals :
    ∀ (reg : Registry) (ident : String) (wl : List Entry) (st : GState)
      (ch : Chain) (st1 : GState),
      lookupA reg ident = some wl →
      wl ≠ [] →
      (∀ e ∈ wl, ∀ p ∈ entryParts e, p ≠ "") →
      lookupA st.cache ident = some ⟨[], none⟩ →
      construct_chain reg ident st = (.ok ch, st1) →
      ∀ (key : String) (tb : List (String × Nat)),
        lookupA ch.tbl key = some tb →
        (∃ q ∈ tb, 1 ≤ q.2) ∧
          ∃ n, lookupA (ch.tlen.getD []) key = some n ∧ 1 ≤ n := by
  intro reg ident wl st ch st1 hr hwl _hne hc hcc key tb htb
  cases wl with
  | nil => exact absurd rfl hwl
  | cons e rest =>
    rcases hta : tallyAll ⟨[], none⟩ (e :: rest) with ⟨err, raw⟩
    cases err with
    | some er => simp [construct_chain, hr, hc, hta] at hcc
    | none =>
      have hraw : goodTbl raw.tbl := by
        have hg := goodTbl_tallyAll (e :: rest) ⟨[], none⟩ (by intro p hp; simp at hp)
        rw [hta] at hg
        exact hg
      simp [construct_chain, hr, hc, hta] at hcc
      obtain ⟨hch, _⟩ := hcc
      rw [← hch] at htb ⊢
      obtain ⟨tb0, htb0, hscl⟩ := lookupA_scaleTbl_inv raw.tbl key tb htb
      have hgood := hraw (key, tb0) (lookupA_mem _ _ _ htb0)
      constructor
      · cases h0 : tb0 with
        | nil => exact absurd h0 hgood.1
        | cons q0 qrest =>
          refine ⟨(q0.1, scaled q0.2), ?_, ?_⟩
          · rw [hscl, h0]
            exact List.mem_cons_self _ _
          · exact one_le_scaled q0.2 (hgood.2 q0 (by rw [h0]; exact List.mem_cons_self _ _))
      · refine ⟨sumW tb, lookupA_scaleTbl_lenTbl raw.tbl key tb htb, ?_⟩
        cases h0 : tb0 with
        | nil => exact absurd h0 hgood.1
        | cons q0 qrest =>
          apply one_le_sumW tb (q0.1, scaled q0.2)
          · rw [hscl, h0]
            exact List.mem_cons_self _ _
          · exact one_le_scaled q0.2 (hgood.2 q0 (by rw [h0]; exact List.mem_cons_self _ _))

/-- Claim C10, witness: the chain built from `["ab"]`, checked at the
state key `"parts"`. -/
theorem claim10_witness :
    (∃ q ∈ [("1", 1)], 1 ≤ (Prod.snd q : Nat)) ∧
      ∃ n, lookupA (chainC8.tlen.getD []) "parts" = some n ∧ 1 ≤ n :=
  claim10_positive_totals regC8 "w" [Entry.str "ab"] stC4 chainC8 stateC8
    rfl (by simp) (by intro e he p hp; simp [entryParts] at he hp; rw [he] at hp; simp at hp; rw [hp]; simp)
    rfl rfl "parts" [("1", 1)] rfl

end MarkovGen

namespace MarkovGen

/-- Claim C1: the claim says `generate_name` never raises and returns
`""` for an unknown identifier.  The code instead evaluates
`name_set[chainName]` inside the `except KeyError:` handler, so an
identifier absent from `name_set` raises `KeyError` out of
`generate_name`, contradicting the docstring of `markov_chain` (an empty chain if
the chain cannot be found or made).  This theorem evaluates the
embedded code at the failing input. -/
theorem claim1_unknown_identifier_raises :
    (generate_name regC1 zeroDraws "unknown" emptyState).1 =
      Except.error PyErr.keyError := rfl

/-- Claim C2: the claim says `select_link` treats a missing `table_len`
key as total 0 and returns `""` (never raising) whenever the total is
0.  In the code the guard `if chainlen is False:` can never fire for an
`int`, so a zero total reaches `random.randrange(0, 0)` and raises
`ValueError`; and a key absent from `table_len` raises `KeyError` at
the `table_len` lookup.  This theorem evaluates both failing
inputs. -/
theorem claim2_select_link_raises :
    select_link ⟨[("a", [("x", 1)])], some [("a", 0)]⟩ "a" 0 =
        Except.error PyErr.valueError ∧
      select_link ⟨[("a", [("x", 1)])], some [("a", 1)]⟩ "b" 0 =
        Except.error PyErr.keyError := ⟨rfl, rfl⟩

/-- Claim C3: the claim (and the comment in the code itself, terminate
the part early when a node has no valid outgoing links)
says `markov_name` never raises on a chain built from a non-empty word
list, truncating a part early at a dead end.  On the chain built from
`["ab", "b"]`, drawing initial letter `b` with target length 2 makes
`select_link` on state `b` look up the absent key `b` in `table_len`,
raising `KeyError`.  This theorem evaluates the embedded code at the
failing input. -/
theorem claim3_markov_name_raises :
    (generate_name regC3 drawsC3 "x" emptyState).1 =
      Except.error PyErr.keyError := rfl

/-- Claim C5: the claim says that for a word list whose entries all
have k parts of length exactly L, `markov_name` returns k
space-separated parts of length at most L.  For `["xab", "aya"]`
(k = 1, L = 3) the walk `a → b` reaches the dead-end character `b` at
length 2 < 3, and `select_link` on state `b` raises `KeyError` instead
of truncating, so no string is returned at all.  This theorem evaluates
the embedded code at the failing input. -/
theorem claim5_uniform_shape_raises :
    (generate_name regC5 drawsC5 "x" emptyState).1 =
      Except.error PyErr.keyError := rfl

/-- Claim C4, counterexample: the claim says `construct_chain` still
succeeds on a word list containing a zero-length word-part.  It does
not: `c = name[0]` raises `IndexError` on the empty part (evaluated
here with the `{}` placeholder installed, exactly as `markov_chain`
calls it). -/
theorem claim4_counterexample :
    (construct_chain regC4 "w" stC4).1 = Except.error PyErr.indexError := rfl

/-- Claim C9, counterexample: the claim says `chain_cache[id]` only
ever holds a fully built and scaled chain.  But `markov_chain` installs
a `{}` placeholder that `incr_chain` then mutates in place, so when
construction raises (here: a zero-length word-part), the cache
permanently holds a partially tallied chain with no `table_len` key,
while the call reports the `IndexError`. -/
theorem claim9_counterexample :
    (lookupA (markov_chain regC9 "x" emptyState).2.cache "x").map Chain.tlen =
        some none ∧
      (markov_chain regC9 "x" emptyState).1 = Except.error PyErr.indexError :=
  ⟨rfl, rfl⟩

end MarkovGen

namespace MarkovGen

theorem scaled_pow_le (n : Nat) (h : scaled n ≠ 0) : scaled n ^ 10 ≤ n ^ 13 := by
  unfold scaled at h ⊢
  exact Nat.findGreatest_of_ne_zero (P := fun m => m ^ 10 ≤ n ^ 13) rfl h

theorem scaled_le_sq (n : Nat) : scaled n ≤ n ^ 2 := by
  unfold scaled
  exact Nat.findGreatest_le _

theorem le_scaled_of (n m : Nat) (hm : m ≤ n ^ 2) (h : m ^ 10 ≤ n ^ 13) :
    m ≤ scaled n := by
  unfold scaled
  exact Nat.le_findGreatest hm h

theorem not_le_of_scaled_lt (n k : Nat) (hk : scaled n < k) (hkb : k ≤ n ^ 2) :
    ¬ k ^ 10 ≤ n ^ 13 := by
  unfold scaled at hk
  exact Nat.findGreatest_is_greatest (P := fun m => m ^ 10 ≤ n ^ 13) hk hkb

theorem cast_le_rpow_iff (n m : Nat) :
    (m : ℝ) ≤ (n : ℝ) ^ ((13 : ℝ) / 10) ↔ m ^ 10 ≤ n ^ 13 := by
  have hn : (0 : ℝ) ≤ (n : ℝ) := Nat.cast_nonneg n
  have hx : (0 : ℝ) ≤ (n : ℝ) ^ ((13 : ℝ) / 10) := Real.rpow_nonneg hn _
  have hpow : ((n : ℝ) ^ ((13 : ℝ) / 10)) ^ (10 : ℕ) = ((n ^ 13 : ℕ) : ℝ) := by
    rw [← Real.rpow_natCast ((n : ℝ) ^ ((13 : ℝ) / 10)) 10, ← Real.rpow_mul hn]
    norm_num
    rw [show ((13 : ℝ)) = ((13 : ℕ) : ℝ) by norm_num, Real.rpow_natCast]
  constructor
  · intro h
    have h10 : ((m : ℝ)) ^ (10 : ℕ) ≤ ((n : ℝ) ^ ((13 : ℝ) / 10)) ^ (10 : ℕ) :=
      pow_le_pow_left₀ (Nat.cast_nonneg m) h 10
    rw [hpow] at h10
    exact_mod_cast h10
  · intro h
    have h10 : ((m : ℝ)) ^ (10 : ℕ) ≤ ((n : ℝ) ^ ((13 : ℝ) / 10)) ^ (10 : ℕ) := by
      rw [hpow]
      exact_mod_cast h
    exact le_of_pow_le_pow_left₀ (by norm_num) hx h10

theorem scaled_eq_floor_rpow (n : Nat) :
    scaled n = Nat.floor ((n : ℝ) ^ ((13 : ℝ) / 10)) := by
  rcases Nat.eq_zero_or_pos n with hn0 | hn1
  · subst hn0
    have h0 : ((0 : ℕ) : ℝ) ^ ((13 : ℝ) / 10) = 0 := by
      rw [Nat.cast_zero]
      exact Real.zero_rpow (by norm_num)
    rw [h0]
    simp [scaled]
  · have hx : (0 : ℝ) ≤ (n : ℝ) ^ ((13 : ℝ) / 10) :=
      Real.rpow_nonneg (Nat.cast_nonneg n) _
    symm
    rw [Nat.floor_eq_iff hx]
    constructor
    · rw [cast_le_rpow_iff]
      rcases Nat.eq_zero_or_pos (scaled n) with h0 | h0
      · rw [h0]
        simp
      · exact scaled_pow_le n (Nat.pos_iff_ne_zero.mp h0)
    · by_contra hlt
      push_neg at hlt
      have h1 : ((scaled n + 1 : ℕ) : ℝ) ≤ (n : ℝ) ^ ((13 : ℝ) / 10) := by
        push_cast
        linarith
      have h2 : (scaled n + 1) ^ 10 ≤ n ^ 13 := (cast_le_rpow_iff n (scaled n + 1)).mp h1
      have hb : scaled n + 1 ≤ n ^ 2 := by
        by_contra hb2
        push_neg at hb2
        have hlt2 : (n ^ 2) ^ 10 < (scaled n + 1) ^ 10 :=
          Nat.pow_lt_pow_left hb2 (by norm_num)
        have hle : n ^ 13 ≤ (n ^ 2) ^ 10 := by
          rw [← pow_mul]
          exact Nat.pow_le_pow_right hn1 (by norm_num)
        omega
      exact not_le_of_scaled_lt n (scaled n + 1) (Nat.lt_succ_self _) hb h2

theorem scaled_mono (a b : Nat) (h : a ≤ b) : scaled a ≤ scaled b := by
  rcases Nat.eq_zero_or_pos (scaled a) with h0 | h0
  · rw [h0]
    exact Nat.zero_le _
  · apply le_scaled_of
    · exact le_trans (scaled_le_sq a) (Nat.pow_le_pow_left h 2)
    · exact le_trans (scaled_pow_le a (Nat.pos_iff_ne_zero.mp h0))
        (Nat.pow_le_pow_left h 13)

end MarkovGen

namespace MarkovGen

/-- Claim C7: `scale_chain` replaces every raw count with the scaling
transform (the table of every state key becomes its `scaleTable`, i.e. every
count `n` becomes `scaled n`), `scaled n` is exactly
`floor(n ^ 1.3)` computed over the reals, and the transform is
monotone, so scaling never inverts the relative frequency ordering of
the raw data. -/
theorem claim7_scaling_transform :
    (∀ (ch : Chain) (key : String) (tb : List (String × Nat)),
        lookupA ch.tbl key = some tb →
        lookupA (scale_chain ch).tbl key = some (scaleTable tb)) ∧
      (∀ n : Nat, scaled n = Nat.floor ((n : ℝ) ^ ((13 : ℝ) / 10))) ∧
      ∀ a b : Nat, a < b → scaled a ≤ scaled b :=
  ⟨fun ch key tb h => lookupA_scaleTbl ch.tbl key tb h,
    scaled_eq_floor_rpow,
    fun a b h => scaled_mono a b (le_of_lt h)⟩

/-- Claim C7, witness: the first conjunct at a one-key chain with raw
count 3 (`scaled 3 = 4`), and monotonicity at `2 < 3`. -/
theorem claim7_witness :
    lookupA (scale_chain ⟨[("a", [("b", 3)])], none⟩).tbl "a" =
        some (scaleTable [("b", 3)]) ∧
      scaled 2 ≤ scaled 3 :=
  ⟨claim7_scaling_transform.1 ⟨[("a", [("b", 3)])], none⟩ "a" [("b", 3)] rfl,
    claim7_scaling_transform.2.2 2 3 (by norm_num)⟩

end MarkovGen
